import Mathlib

/-!
# Verification of the pytorrent peer engine

Shallow embedding of the pytorrent sources (`msg_handler.py`, `torrent_io.py`,
`connections.py`, `config.py`) as executable Lean definitions, together with
theorems settling the frozen claims about the natural-language specification.

Conventions:
* Python `bytes` are modelled as `List Nat` (each element a byte value).
* Python exceptions are modelled as `Except String` results or as `none`
  (whichever the definition notes); the string names the Python exception.
* `hashlib.sha1` is an external library call; definitions that use it take a
  `sha1 : List Nat → List Nat` parameter, so theorems hold for every digest
  function and concrete evaluations instantiate it explicitly.
-/

namespace Pytorrent

/-- `BLOCK_SIZE = pow(2, 14)` from `config.py`. -/
def BLOCK_SIZE : Nat := 2 ^ 14

/-- Big-endian interpretation of a byte string as an unsigned number
(the value computed by `struct.unpack(">L", ...)` on 4 bytes, and the
magnitude underlying `bitstring.Bits(...).int`). -/
def beNat (bs : List Nat) : Nat :=
  bs.foldl (fun a b => a * 256 + b) 0

/-- Big-endian 4-byte encoding of a number, as produced by
`struct.pack(">L", v)` for `v < 2^32`. -/
def toBytes4 (v : Nat) : List Nat :=
  [v / 2 ^ 24 % 256, v / 2 ^ 16 % 256, v / 2 ^ 8 % 256, v % 256]

/-- `bitstring.Bits(bs).int`: two's-complement signed interpretation of a
byte string.  On the empty byte string the library raises `InterpretError`,
modelled as `none`. -/
def bitsSignedInt (bs : List Nat) : Option Int :=
  if bs.isEmpty then none
  else
    let n := beNat bs
    some (if 2 ^ (8 * bs.length - 1) ≤ n then (n : Int) - 2 ^ (8 * bs.length) else (n : Int))

/-- State of a constructed `MsgHandler` (`msg_handler.py`): the raw bytes, the
parsed length prefix (`self.length_prefix`, a signed int) and the
`is_incomplete` flag set by `_validate_payload_length`. -/
structure MsgHandlerSt where
  raw_data : List Nat
  lengthPfx : Int
  is_incomplete : Bool
deriving DecidableEq, Repr

/-- `MsgHandler.__init__(data)`: `_set_length_prefix` reads
`bitstring.Bits(self.raw_data[0:4]).int` (raising on an empty slice, modelled
as `none`), then `_validate_payload_length` sets `is_incomplete` when
`len(self.raw_data) < self.length_prefix + 4`. -/
def mkMsgHandler (data : List Nat) : Option MsgHandlerSt :=
  match bitsSignedInt (data.take 4) with
  | none => none
  | some lp =>
    some { raw_data := data, lengthPfx := lp,
           is_incomplete := decide ((data.length : Int) < lp + 4) }

/-- `msg_keep_alive_pack()` = `struct.pack(">L", 0)`. -/
def msg_keep_alive_pack : List Nat := toBytes4 0

theorem beNat_toBytes4 (v : Nat) (h : v < 2 ^ 32) : beNat (toBytes4 v) = v := by
  simp only [beNat, toBytes4, List.foldl]
  omega

theorem bitsSignedInt_of_lt (bs : List Nat) (hbs : bs.isEmpty = false)
    (h : beNat bs < 2 ^ (8 * bs.length - 1)) :
    bitsSignedInt bs = some ((beNat bs : Int)) := by
  simp only [bitsSignedInt, hbs, Bool.false_eq_true, if_false]
  rw [if_neg (Nat.not_le.mpr h)]

theorem bitsSignedInt_toBytes4 (v : Nat) (h : v < 2 ^ 31) :
    bitsSignedInt (toBytes4 v) = some (v : Int) := by
  have h32 : v < 2 ^ 32 := by omega
  have hb := beNat_toBytes4 v h32
  have hlt : beNat (toBytes4 v) < 2 ^ (8 * (toBytes4 v).length - 1) := by
    rw [hb, show (toBytes4 v).length = 4 from rfl]
    norm_num
    omega
  rw [bitsSignedInt_of_lt (toBytes4 v) rfl hlt, hb]

theorem mkMsgHandler_of_bits (data : List Nat) (lp : Int)
    (h : bitsSignedInt (data.take 4) = some lp) :
    mkMsgHandler data
      = some ⟨data, lp, decide ((data.length : Int) < lp + 4)⟩ := by
  rw [mkMsgHandler, h]

/-- Claim C1, counterexample.  The empty buffer is a strict prefix of the
valid keep-alive frame `b"\x00\x00\x00\x00"` (its length 0 is below
`4 + length_prefix = 4`), yet constructing `MsgHandler` on it does not report
`Incomplete`: `bitstring.Bits(b"").int` raises `InterpretError`, so
construction fails (modelled as `none`). -/
theorem c1_counterexample :
    mkMsgHandler (msg_keep_alive_pack.take 0) = none ∧
    msg_keep_alive_pack.take 0 ≠ msg_keep_alive_pack := by
  constructor
  · rfl
  · decide

/-- Claim C1, amended: for every NONEMPTY strict prefix of a valid framed
peer-wire message (frame = 4-byte big-endian length prefix below `2^31`
followed by a payload of exactly that length), constructing `MsgHandler`
succeeds, reports `is_incomplete = true`, and stores the buffer verbatim
(`raw_data` is the input, so the caller retains it and no bytes are
consumed).  On the empty buffer, construction raises instead. -/
theorem c1_amended (L : Nat) (payload : List Nat) (hL : L < 2 ^ 31)
    (hp : payload.length = L) (k : Nat) (hk1 : 1 ≤ k) (hk2 : k < 4 + L) :
    ∃ st, mkMsgHandler ((toBytes4 L ++ payload).take k) = some st ∧
      st.is_incomplete = true ∧ st.raw_data = (toBytes4 L ++ payload).take k := by
  by_cases h4 : 4 ≤ k
  · -- the whole 4-byte length prefix is present
    have htake : ((toBytes4 L ++ payload).take k).take 4 = toBytes4 L := by
      rw [List.take_take]
      have hm : min 4 k = 4 := by omega
      rw [hm, List.take_append_of_le_length (by simp [toBytes4])]
      simp [toBytes4]
    have hlen : ((toBytes4 L ++ payload).take k).length = k := by
      have hl2 : (toBytes4 L ++ payload).length = 4 + L := by
        simp only [toBytes4, List.length_append, List.length_cons, List.length_nil, hp]
      rw [List.length_take, hl2]
      omega
    have hbits : bitsSignedInt (((toBytes4 L ++ payload).take k).take 4) = some (L : Int) := by
      rw [htake]
      exact bitsSignedInt_toBytes4 L hL
    refine ⟨_, mkMsgHandler_of_bits _ _ hbits, ?_, rfl⟩
    exact decide_eq_true (by rw [hlen]; omega)
  · -- only 1 to 3 bytes of the length prefix are present
    have hk3 : k ≤ 3 := by omega
    interval_cases k
    · -- k = 1
      have ht : (toBytes4 L ++ payload).take 1 = [L / 2 ^ 24 % 256] := by
        simp [toBytes4]
      rw [ht]
      have hbits : bitsSignedInt ([L / 2 ^ 24 % 256].take 4)
          = some ((beNat [L / 2 ^ 24 % 256] : Int)) :=
        bitsSignedInt_of_lt [L / 2 ^ 24 % 256] rfl (by simp only [beNat, List.foldl, List.length]; omega)
      refine ⟨_, mkMsgHandler_of_bits _ _ hbits, ?_, rfl⟩
      exact decide_eq_true (by simp only [beNat, List.foldl, List.length_cons, List.length_nil]; omega)
    · -- k = 2
      have ht : (toBytes4 L ++ payload).take 2 = [L / 2 ^ 24 % 256, L / 2 ^ 16 % 256] := by
        simp [toBytes4]
      rw [ht]
      have hbits : bitsSignedInt ([L / 2 ^ 24 % 256, L / 2 ^ 16 % 256].take 4)
          = some ((beNat [L / 2 ^ 24 % 256, L / 2 ^ 16 % 256] : Int)) :=
        bitsSignedInt_of_lt [L / 2 ^ 24 % 256, L / 2 ^ 16 % 256] rfl (by simp only [beNat, List.foldl, List.length]; omega)
      refine ⟨_, mkMsgHandler_of_bits _ _ hbits, ?_, rfl⟩
      exact decide_eq_true (by simp only [beNat, List.foldl, List.length_cons, List.length_nil]; omega)
    · -- k = 3
      have ht : (toBytes4 L ++ payload).take 3
          = [L / 2 ^ 24 % 256, L / 2 ^ 16 % 256, L / 2 ^ 8 % 256] := by
        simp [toBytes4]
      rw [ht]
      have hbits : bitsSignedInt ([L / 2 ^ 24 % 256, L / 2 ^ 16 % 256, L / 2 ^ 8 % 256].take 4)
          = some ((beNat [L / 2 ^ 24 % 256, L / 2 ^ 16 % 256, L / 2 ^ 8 % 256] : Int)) :=
        bitsSignedInt_of_lt [L / 2 ^ 24 % 256, L / 2 ^ 16 % 256, L / 2 ^ 8 % 256] rfl (by simp only [beNat, List.foldl, List.length]; omega)
      refine ⟨_, mkMsgHandler_of_bits _ _ hbits, ?_, rfl⟩
      exact decide_eq_true (by simp only [beNat, List.foldl, List.length_cons, List.length_nil]; omega)

/-- Witness for `c1_amended`: the 7-byte truncated `have` frame
`b"\x00\x00\x00\x05\x04\x00\x00"` (length prefix 5, 3 of 5 payload bytes). -/
theorem c1_amended_witness :
    (5 : Nat) < 2 ^ 31 ∧ ([4, 0, 0] ++ [0, 1] : List Nat).length = 5 ∧ 1 ≤ 7 ∧ 7 < 4 + 5 ∧
    (∃ st, mkMsgHandler ((toBytes4 5 ++ ([4, 0, 0] ++ [0, 1])).take 7) = some st ∧
      st.is_incomplete = true ∧
      st.raw_data = (toBytes4 5 ++ ([4, 0, 0] ++ [0, 1])).take 7) :=
  ⟨by norm_num, by decide, by decide, by decide,
    c1_amended 5 ([4, 0, 0] ++ [0, 1]) (by norm_num) (by decide) 7 (by decide) (by decide)⟩

/-! ## Message payloads and the codec (`msg_handler.py`) -/

/-- A parsed Python value appearing in unpacked message dictionaries:
`struct.unpack` produces tuples of ints, `bitstring` produces ints and
bool lists, slicing produces bytes. -/
inductive PyVal where
  | pyInt : Int → PyVal
  | pyTup : List Int → PyVal
  | pyBytes : List Nat → PyVal
  | pyBools : List Bool → PyVal
deriving DecidableEq, Repr

/-- `MsgHandler.msg_id_to_name`. -/
def msg_id_to_name : List (Nat × String) :=
  [(0, "choke"), (1, "unchoke"), (2, "interested"), (3, "not interested"),
   (4, "have"), (5, "bitfield"), (6, "request"), (7, "piece"),
   (8, "cancel"), (9, "port")]

/-- `MsgHandler.msg_id` property: `None` for a zero length prefix, else
`raw_data[4]` (an out-of-range index raises, modelled as `none`). -/
def msgId (st : MsgHandlerSt) : Option Nat :=
  if st.lengthPfx = 0 then none else st.raw_data.get? 4

/-- `MsgHandler.msg_name` property: looks `msg_id` up in `msg_id_to_name`
(a missing key raises `KeyError`, modelled as `none`). -/
def msgName (st : MsgHandlerSt) : Option String :=
  (msgId st).bind (fun i => msg_id_to_name.lookup i)

/-- `MsgHandler.msg_payload_raw` property: `None` unless `length_prefix > 1`,
else the slice `raw_data[5 : length_prefix + 4]`; the source asserts that the
slice has `length_prefix - 1` bytes (an assertion failure is modelled as
`none`). -/
def msgPayloadRaw (st : MsgHandlerSt) : Option (List Nat) :=
  if 1 < st.lengthPfx then
    let sl := (st.raw_data.take (st.lengthPfx.toNat + 4)).drop 5
    if (sl.length : Int) = st.lengthPfx - 1 then some sl else none
  else none

/-- One MSB-first byte of a `bitstring.BitArray`. -/
def byteToBits (b : Nat) : List Bool :=
  [b / 128 % 2 == 1, b / 64 % 2 == 1, b / 32 % 2 == 1, b / 16 % 2 == 1,
   b / 8 % 2 == 1, b / 4 % 2 == 1, b / 2 % 2 == 1, b % 2 == 1]

/-- `msg_have_unpack`: asserts 4 bytes, returns
`{"piece_index": int(bitstring.Bits(data).int)}` (a signed value). -/
def msg_have_unpack (data : List Nat) : Option (List (String × PyVal)) :=
  if data.length = 4 then
    (bitsSignedInt data).map (fun i => [("piece_index", PyVal.pyInt i)])
  else none

/-- `msg_bitfield_unpack`: `{"bitfield": list(bitstring.BitArray(data))}`,
MSB-first within each byte. -/
def msg_bitfield_unpack (data : List Nat) : Option (List (String × PyVal)) :=
  some [("bitfield", PyVal.pyBools (data.map byteToBits).flatten)]

/-- `msg_request_unpack`: asserts 12 bytes; each field is the raw result of
`struct.unpack(">L", ...)`, which is a ONE-ELEMENT TUPLE, not an int. -/
def msg_request_unpack (data : List Nat) : Option (List (String × PyVal)) :=
  if data.length = 12 then
    some [("index", PyVal.pyTup [(beNat (data.take 4) : Int)]),
          ("begin", PyVal.pyTup [(beNat ((data.take 8).drop 4) : Int)]),
          ("length", PyVal.pyTup [(beNat ((data.take 12).drop 8) : Int)])]
  else none

/-- `msg_piece_unpack`: fields extracted with `struct.unpack(">L", ...)[0]`
(ints) plus the remaining block bytes; `struct.unpack` raises unless its
argument has exactly 4 bytes, so fewer than 8 payload bytes raise. -/
def msg_piece_unpack (data : List Nat) : Option (List (String × PyVal)) :=
  if 8 ≤ data.length then
    some [("index", PyVal.pyInt (beNat (data.take 4))),
          ("begin", PyVal.pyInt (beNat ((data.take 8).drop 4))),
          ("block", PyVal.pyBytes (data.drop 8))]
  else none

/-- `msg_port_unpack`: `struct.unpack(">H", data)[0]`, raising unless the
payload has exactly 2 bytes. -/
def msg_port_unpack (data : List Nat) : Option (List (String × PyVal)) :=
  if data.length = 2 then some [("listen-port", PyVal.pyInt (beNat data))] else none

/-- `MsgHandler.msg_payload_parsed`: dispatches on `msg_name` through
`MsgHandler.msg_unpackers`.  The entries for `choke`/`unchoke` are `None`
(calling them raises), and the names `msg_interested_unpack`,
`msg_not_interested_unpack` and `msg_cancel_unpack` are referenced but never
defined in the module (`eval` raises `NameError`); all of those raise,
modelled as `none`. -/
def msgPayloadParsed (st : MsgHandlerSt) : Option (List (String × PyVal)) :=
  match msgPayloadRaw st with
  | none => none
  | some pr =>
    match msgName st with
    | some "have" => msg_have_unpack pr
    | some "bitfield" => msg_bitfield_unpack pr
    | some "request" => msg_request_unpack pr
    | some "piece" => msg_piece_unpack pr
    | some "port" => msg_port_unpack pr
    | _ => none

/-- `MsgHandler.next_msg_raw_data`: the tail after one full frame, `None`
when nothing remains. -/
def nextMsgRawData (st : MsgHandlerSt) : Option (List Nat) :=
  if st.lengthPfx + 4 < (st.raw_data.length : Int) then
    some (st.raw_data.drop (st.lengthPfx + 4).toNat)
  else none

/-- `msg_interested_pack()` = `struct.pack(">L", 1) + bytes([2])`. -/
def msg_interested_pack : List Nat := toBytes4 1 ++ [2]

/-- `msg_not_interested_pack()` = `struct.pack(">L", 1) + bytes([3])`. -/
def msg_not_interested_pack : List Nat := toBytes4 1 ++ [3]

/-- `msg_request_pack(index, begin, length)`. -/
def msg_request_pack (index begin length : Nat) : List Nat :=
  [0, 0, 0, 13, 6] ++ toBytes4 index ++ toBytes4 begin ++ toBytes4 length

/-- The string-keyed `MsgHandler.msg_packers` table of `msg_handler.py`:
message name to the NAME of the packing function `pack_msg` will `eval`. -/
def msg_packers : List (String × String) :=
  [("keep-alive", "msg_keep_alive_pack"), ("choke", "msg_choke_pack"),
   ("unchoke", "msg_unchoke_pack"), ("interested", "msg_interested_pack"),
   ("not interested", "msg_not_interested_pack"), ("have", "msg_have_pack"),
   ("bitfield", "msg_bitfield_pack"), ("request", "msg_request_pack"),
   ("request_all", "msg_request_all_pack"), ("piece", "msg_piece_pack"),
   ("cancel", "msg_cancel_pack"), ("port", "msg_port_pack")]

/-- The module-level functions actually defined in `msg_handler.py`;
`pack_msg` raises `NameError` when `eval` meets any other name. -/
def moduleDefNames : List String :=
  ["msg_interested_pack", "msg_not_interested_pack", "msg_keep_alive_pack",
   "msg_have_unpack", "msg_bitfield_unpack", "msg_request_unpack",
   "msg_request_pack", "msg_request_all_pack", "msg_piece_unpack",
   "msg_cancel_pack", "msg_port_unpack"]

/-- Claim C5, counterexample.  Packing a `request` with fields
`(0, 32768, 16384)` and decoding the frame yields field values that are
one-element tuples (`struct.unpack` results), not the encoded integers:
the decoded `index` is `(0,)` which differs from `0`. -/
theorem c5_counterexample :
    (mkMsgHandler (msg_request_pack 0 32768 16384)).bind msgPayloadParsed
      = some [("index", PyVal.pyTup [0]), ("begin", PyVal.pyTup [32768]),
              ("length", PyVal.pyTup [16384])] ∧
    PyVal.pyTup [0] ≠ PyVal.pyInt 0 := by
  refine ⟨by decide, by decide⟩

/-- Claim C5, amended: of the kinds named by `msg_packers`, only
`keep-alive`, `interested`, `not interested` and `request` have packing
functions defined in the module.  For those, encoding then decoding recovers
the message: name `interested` / `not interested` with no payload, the
keep-alive as a complete zero-length frame with name `None`, and for
`request` a complete frame named `request` whose parsed fields are
ONE-ELEMENT TUPLES wrapping the encoded integers, with no remainder.  The
packer names for `choke`, `unchoke`, `have`, `bitfield`, `piece` and `port`
are not defined in the module, so `pack_msg` raises `NameError` for them and
those kinds cannot be encoded at all. -/
theorem c5_amended :
    ((mkMsgHandler msg_interested_pack).map (fun st => (st.is_incomplete, msgName st, msgPayloadRaw st))
        = some (false, some "interested", none)) ∧
    ((mkMsgHandler msg_not_interested_pack).map (fun st => (st.is_incomplete, msgName st, msgPayloadRaw st))
        = some (false, some "not interested", none)) ∧
    ((mkMsgHandler msg_keep_alive_pack).map (fun st => (st.is_incomplete, msgName st, st.lengthPfx))
        = some (false, none, 0)) ∧
    (∀ index begin length : Nat, index < 2 ^ 32 → begin < 2 ^ 32 → length < 2 ^ 32 →
      ∃ st, mkMsgHandler (msg_request_pack index begin length) = some st ∧
        st.is_incomplete = false ∧ msgName st = some "request" ∧
        msgPayloadParsed st
          = some [("index", PyVal.pyTup [(index : Int)]),
                  ("begin", PyVal.pyTup [(begin : Int)]),
                  ("length", PyVal.pyTup [(length : Int)])] ∧
        nextMsgRawData st = none) ∧
    (∀ name ∈ ["choke", "unchoke", "have", "bitfield", "piece", "port"],
      ∃ f, msg_packers.lookup name = some f ∧ moduleDefNames.contains f = false) := by
  refine ⟨by decide, by decide, by decide, ?_, by decide⟩
  intro index begin length hi hb hl
  have hbits : bitsSignedInt ((msg_request_pack index begin length).take 4)
      = some (13 : Int) := by
    rw [show (msg_request_pack index begin length).take 4 = [0, 0, 0, 13] from rfl]
    decide
  have hlen : (msg_request_pack index begin length).length = 17 := by
    simp [msg_request_pack, toBytes4]
  have hinc : ¬ (((msg_request_pack index begin length).length : Int) < 13 + 4) := by
    rw [hlen]
    decide
  have hnext : ¬ ((13 : Int) + 4 < ((msg_request_pack index begin length).length : Int)) := by
    rw [hlen]
    decide
  refine ⟨_, mkMsgHandler_of_bits _ _ hbits, ?_, ?_, ?_, ?_⟩
  · exact decide_eq_false hinc
  · rfl
  · -- payload parsing
    have hraw : msgPayloadRaw
        ⟨msg_request_pack index begin length, 13,
          decide (((msg_request_pack index begin length).length : Int) < 13 + 4)⟩
        = some ((toBytes4 index ++ toBytes4 begin) ++ toBytes4 length) := by
      unfold msgPayloadRaw
      rw [if_pos (by decide : (1 : Int) < 13)]
      have htk : ((msg_request_pack index begin length).take ((13 : Int).toNat + 4)).drop 5
          = (toBytes4 index ++ toBytes4 begin) ++ toBytes4 length := by
        rw [show ((13 : Int).toNat + 4) = 17 from rfl,
            List.take_of_length_le (by rw [hlen])]
        rfl
      simp only [htk]
      rw [if_pos (by simp [toBytes4])]
    have hname : msgName
        ⟨msg_request_pack index begin length, 13,
          decide (((msg_request_pack index begin length).length : Int) < 13 + 4)⟩
        = some "request" := rfl
    have hdispatch : msgPayloadParsed
        ⟨msg_request_pack index begin length, 13,
          decide (((msg_request_pack index begin length).length : Int) < 13 + 4)⟩
        = msg_request_unpack ((toBytes4 index ++ toBytes4 begin) ++ toBytes4 length) := by
      unfold msgPayloadParsed
      rw [hraw, hname]
      rfl
    rw [hdispatch]
    unfold msg_request_unpack
    rw [if_pos (by simp [toBytes4] :
          (((toBytes4 index ++ toBytes4 begin) ++ toBytes4 length)).length = 12)]
    rw [show (((toBytes4 index ++ toBytes4 begin) ++ toBytes4 length)).take 4
          = toBytes4 index from rfl,
        show ((((toBytes4 index ++ toBytes4 begin) ++ toBytes4 length)).take 8).drop 4
          = toBytes4 begin from rfl,
        show ((((toBytes4 index ++ toBytes4 begin) ++ toBytes4 length)).take 12).drop 8
          = toBytes4 length from rfl,
        beNat_toBytes4 index hi, beNat_toBytes4 begin hb, beNat_toBytes4 length hl]
  · exact if_neg hnext

/-- Witness for `c5_amended`, exercising the universally quantified
`request` round trip at the frame from the spec scenario,
`encode_request(0, 32768, 16384)`. -/
theorem c5_amended_witness :
    (0 : Nat) < 2 ^ 32 ∧ (32768 : Nat) < 2 ^ 32 ∧ (16384 : Nat) < 2 ^ 32 ∧
    (∃ st, mkMsgHandler (msg_request_pack 0 32768 16384) = some st ∧
      st.is_incomplete = false ∧ msgName st = some "request" ∧
      msgPayloadParsed st
        = some [("index", PyVal.pyTup [(0 : Int)]),
                ("begin", PyVal.pyTup [(32768 : Int)]),
                ("length", PyVal.pyTup [(16384 : Int)])] ∧
      nextMsgRawData st = none) :=
  ⟨by norm_num, by norm_num, by norm_num,
    c5_amended.2.2.2.1 0 32768 16384 (by norm_num) (by norm_num) (by norm_num)⟩

/-! ## Pieces and the piece manager (`torrent_io.py`) -/

/-- State of a `Piece` (`torrent_io.py`).  `blocksRecieved` keeps the
source's spelling; `blockData` models `self._block_data`, a slot per block
that is `None` until written. -/
structure PieceSt where
  index : Nat
  blocks : List (Nat × Nat)
  piece_hash : List Nat
  length : Nat
  blocksRecieved : Nat
  blockData : List (Option (List Nat))
deriving DecidableEq, Repr

/-- `Piece.__init__`: `blocks_recieved = 0`, `_block_data = [None] * len(blocks)`. -/
def mkPiece (index : Nat) (blocks : List (Nat × Nat)) (piece_hash : List Nat)
    (length : Nat) : PieceSt :=
  ⟨index, blocks, piece_hash, length, 0, List.replicate blocks.length none⟩

/-- `Piece._validate_piece`: length check then SHA-1 check. -/
def validatePiece (sha1 : List Nat → List Nat) (p : PieceSt)
    (piece_bytes : List Nat) : Bool :=
  if piece_bytes.length ≠ p.length then false
  else if sha1 piece_bytes ≠ p.piece_hash then false
  else true

/-- `b"".join(block_data)`: concatenation, raising `TypeError` (modelled as
`none`) at the first `None` slot. -/
def joinAll : List (Option (List Nat)) → Option (List Nat)
  | [] => some []
  | none :: _ => none
  | some b :: rest => (joinAll rest).map (fun t => b ++ t)

/-- `Piece._write_piece`: join the slots, validate, and on success hand the
bytes to the writer.  Result is `(done, piece, written)` where `written` is
the byte buffer passed to `FileWriter.write_piece` (`none` when nothing was
written). -/
def writePiece (sha1 : List Nat → List Nat) (p : PieceSt) :
    Except String (Bool × PieceSt × Option (List Nat)) :=
  match joinAll p.blockData with
  | none => .error "TypeError"
  | some piece_bytes =>
    if validatePiece sha1 p piece_bytes then .ok (true, p, some piece_bytes)
    else .ok (false, p, none)

/-- `Piece.write_block(index, begin, block)`: validates the index and the
alignment of `begin`, stores the block at slot `begin / BLOCK_SIZE` (an
out-of-range slot raises `IndexError`), increments `blocks_recieved`, and
triggers `_write_piece` exactly when the counter reaches `len(blocks)`. -/
def writeBlock (sha1 : List Nat → List Nat) (p : PieceSt) (index begin_ : Nat)
    (block : List Nat) : Except String (Bool × PieceSt × Option (List Nat)) :=
  if index ≠ p.index then .error "ValueError: incorrect index"
  else if begin_ % BLOCK_SIZE ≠ 0 then .error "ValueError: begin not aligned"
  else if begin_ / BLOCK_SIZE < p.blockData.length then
    let p2 : PieceSt :=
      { p with blockData := p.blockData.set (begin_ / BLOCK_SIZE) (some block),
               blocksRecieved := p.blocksRecieved + 1 }
    if p2.blocksRecieved = p2.blocks.length then writePiece sha1 p2
    else .ok (false, p2, none)
  else .error "IndexError: block slot out of range"

/-- Thread a sequence of `write_block` calls (each using the piece's own
index, as a well-behaved peer does) through a piece, collecting the returned
completion flags; a raised exception aborts the run. -/
def runWrites (sha1 : List Nat → List Nat) :
    PieceSt → List (Nat × List Nat) → Except String (List Bool × PieceSt)
  | p, [] => .ok ([], p)
  | p, (begin_, block) :: rest =>
    match writeBlock sha1 p p.index begin_ block with
    | .error e => .error e
    | .ok (d, p2, _) =>
      match runWrites sha1 p2 rest with
      | .error e => .error e
      | .ok (ds, pf) => .ok (d :: ds, pf)

/-- The shared block template of `PieceManager._create_queue`:
`[(BLOCK_SIZE * i, BLOCK_SIZE) for i in range(floor(piece_length / BLOCK_SIZE))]`. -/
def fullBlocks (piece_length : Nat) : List (Nat × Nat) :=
  (List.range (piece_length / BLOCK_SIZE)).map (fun i => (BLOCK_SIZE * i, BLOCK_SIZE))

/-- `PieceManager._create_queue`: one full-length `Piece` per whole piece not
already on disk, plus, when `torrent_length mod piece_length` is non-zero, an
irregular final piece whose block list appends a trailing block of length
`irregular mod BLOCK_SIZE`.  (The deque's `maxlen` equals the piece count,
so no eviction occurs and a plain list suffices.) -/
def createQueue (torrent_length piece_length : Nat) (piece_hashes : List (List Nat))
    (curr : List Nat) : List PieceSt :=
  let whole := torrent_length / piece_length
  let fulls := ((List.range whole).filter (fun i => !(curr.contains i))).map
      (fun i => mkPiece i (fullBlocks piece_length) (piece_hashes.getD i []) piece_length)
  let irr := torrent_length % piece_length
  if irr ≠ 0 then
    if curr.contains whole then fulls
    else fulls ++ [mkPiece whole
        (fullBlocks irr ++ [(BLOCK_SIZE * (irr / BLOCK_SIZE), irr % BLOCK_SIZE)])
        (piece_hashes.getD whole []) irr]
  else fulls

/-- `PieceManager.get_piece(bitfield)` with an explicit fuel bound: the outer
`none` means the fuel ran out, i.e. the source's unbounded `while True` loop
has not returned within that many iterations.  One iteration pops the head
(returning `None` on an empty queue), returns the piece when
`bitfield[piece.index]` is true, and otherwise appends it to the tail and
loops.  A `None` bitfield or an out-of-range index raises. -/
def getPieceFuel :
    Nat → Option (List Bool) → List PieceSt →
      Option (Except String (Option PieceSt × List PieceSt))
  | 0, _, _ => none
  | fuel + 1, bf, q =>
    match q with
    | [] => some (.ok (none, []))
    | p :: rest =>
      match bf with
      | none => some (.error "TypeError: NoneType is not subscriptable")
      | some arr =>
        match arr.get? p.index with
        | none => some (.error "IndexError: list index out of range")
        | some b =>
          if b then some (.ok (some p, rest)) else getPieceFuel fuel bf (rest ++ [p])

/-- A single queued piece, wanted by nobody in the counterexample run. -/
def pieceA : PieceSt := mkPiece 0 [(0, BLOCK_SIZE)] [1] BLOCK_SIZE

/-- Claim C2 (code bug): with a non-empty queue none of whose piece indices
is set in the bitfield, `get_piece` never returns: for EVERY iteration bound
the loop is still running (each pass pops the piece and appends it back,
returning the queue to the same state).  The claimed bounded one-pass stop
condition does not exist in the source. -/
theorem c2_nontermination :
    ∀ fuel : Nat, getPieceFuel fuel (some [false]) [pieceA] = none := by
  intro fuel
  induction fuel with
  | zero => rfl
  | succ n ih =>
    have hstep : getPieceFuel (n + 1) (some [false]) [pieceA]
        = getPieceFuel n (some [false]) [pieceA] := rfl
    rw [hstep]
    exact ih

/-- Blocks of a piece partition `[0, len)`: begin offsets are consecutive
multiples of `BLOCK_SIZE`, every non-trailing block has length `BLOCK_SIZE`,
and the lengths sum to `len`. -/
def partitionOk (bs : List (Nat × Nat)) (len : Nat) : Prop :=
  (∀ j (h : j < bs.length), (bs.get ⟨j, h⟩).1 = BLOCK_SIZE * j) ∧
  (∀ j (h : j < bs.length), j + 1 < bs.length → (bs.get ⟨j, h⟩).2 = BLOCK_SIZE) ∧
  (bs.map Prod.snd).sum = len

theorem fullBlocks_getElem (pl j : Nat) (h : j < (fullBlocks pl).length) :
    (fullBlocks pl)[j] = (BLOCK_SIZE * j, BLOCK_SIZE) := by
  simp [fullBlocks]

theorem fullBlocks_length (pl : Nat) : (fullBlocks pl).length = pl / BLOCK_SIZE := by
  simp [fullBlocks]

theorem fullBlocks_sum (pl : Nat) :
    ((fullBlocks pl).map Prod.snd).sum = pl / BLOCK_SIZE * BLOCK_SIZE := by
  rw [fullBlocks, List.map_map]
  have hc : (Prod.snd ∘ fun i => (BLOCK_SIZE * i, BLOCK_SIZE)) = fun (_ : Nat) => BLOCK_SIZE := rfl
  rw [hc, List.map_const', List.sum_replicate, List.length_range, smul_eq_mul]

theorem partitionOk_fullBlocks (pl : Nat) (hdvd : BLOCK_SIZE ∣ pl) :
    partitionOk (fullBlocks pl) pl := by
  refine ⟨fun j h => ?_, fun j h _ => ?_, ?_⟩
  · rw [List.get_eq_getElem, fullBlocks_getElem]
  · rw [List.get_eq_getElem, fullBlocks_getElem]
  · rw [fullBlocks_sum, Nat.div_mul_cancel hdvd]

theorem partitionOk_irrBlocks (irr : Nat) :
    partitionOk
      (fullBlocks irr ++ [(BLOCK_SIZE * (irr / BLOCK_SIZE), irr % BLOCK_SIZE)]) irr := by
  have hn : (fullBlocks irr).length = irr / BLOCK_SIZE := fullBlocks_length irr
  have hlen : (fullBlocks irr ++ [(BLOCK_SIZE * (irr / BLOCK_SIZE), irr % BLOCK_SIZE)]).length
      = (fullBlocks irr).length + 1 := by simp
  refine ⟨fun j h => ?_, fun j h hlt => ?_, ?_⟩
  · rw [List.get_eq_getElem]
    by_cases hj : j < (fullBlocks irr).length
    · rw [List.getElem_append_left hj, fullBlocks_getElem]
    · have hj2 : (fullBlocks irr).length ≤ j := by omega
      have hj3 : j = irr / BLOCK_SIZE := by rw [hlen] at h; omega
      rw [List.getElem_append_right hj2]
      simp [hj3, hn]
  · have hj : j < (fullBlocks irr).length := by rw [hlen] at hlt; omega
    rw [List.get_eq_getElem, List.getElem_append_left hj, fullBlocks_getElem]
  · rw [List.map_append, List.sum_append, fullBlocks_sum]
    simp only [List.map_cons, List.map_nil, List.sum_cons, List.sum_nil]
    have hdm := Nat.div_add_mod irr BLOCK_SIZE
    rw [Nat.mul_comm (irr / BLOCK_SIZE) BLOCK_SIZE]
    omega

/-- Claim C6, amended: when `BLOCK_SIZE` divides `piece length` (as it does
for every real torrent, piece sizes being powers of two at least 2^14),
every piece built by `_create_queue` carries a block list whose begin
offsets are the consecutive multiples `BLOCK_SIZE * j`, whose non-trailing
blocks all have length exactly `BLOCK_SIZE`, and whose lengths sum to that
piece's expected length.  The trailing block of the irregular last piece has
length `last_len mod BLOCK_SIZE`, which is ZERO (not positive) whenever
`BLOCK_SIZE` divides the last piece's length. -/
theorem c6_amended (tl pl : Nat) (hashes : List (List Nat)) (_hpl : 0 < pl)
    (hdvd : BLOCK_SIZE ∣ pl) :
    ∀ p ∈ createQueue tl pl hashes [], partitionOk p.blocks p.length := by
  intro p hp
  have hfilter : (fun (i : Nat) => !(([] : List Nat).contains i)) = fun _ => true := by
    funext i
    rfl
  simp only [createQueue, hfilter, List.filter_true] at hp
  have hfull : ∀ q ∈ (List.range (tl / pl)).map
      (fun i => mkPiece i (fullBlocks pl) (hashes.getD i []) pl),
      partitionOk q.blocks q.length := by
    intro q hq
    rcases List.mem_map.mp hq with ⟨i, _, rfl⟩
    exact partitionOk_fullBlocks pl hdvd
  by_cases hirr : tl % pl = 0
  · rw [if_neg (by omega)] at hp
    exact hfull p hp
  · rw [if_pos hirr, if_neg (by simp)] at hp
    rcases List.mem_append.mp hp with hleft | hright
    · exact hfull p hleft
    · rcases List.mem_singleton.mp hright with rfl
      exact partitionOk_irrBlocks (tl % pl)

/-- Witness for `c6_amended`: a 49152-byte torrent with 32768-byte pieces. -/
theorem c6_amended_witness :
    0 < 32768 ∧ BLOCK_SIZE ∣ 32768 ∧
    (∀ p ∈ createQueue 49152 32768 [[1], [2]] [], partitionOk p.blocks p.length) :=
  ⟨by decide, ⟨2, by norm_num [BLOCK_SIZE]⟩,
    c6_amended 49152 32768 [[1], [2]] (by decide) ⟨2, by norm_num [BLOCK_SIZE]⟩⟩

/-- Claim C6, counterexample.  Torrent of 49152 bytes with 32768-byte pieces:
the last piece has 16384 bytes (irregular, an exact multiple of
`BLOCK_SIZE`), and `_create_queue` gives it the block list
`[(0, 16384), (16384, 0)]` containing a ZERO-LENGTH trailing block, so not
every block has positive length. -/
theorem c6_counterexample :
    ((createQueue 49152 32768 [[1], [2]] []).map PieceSt.blocks)
      = [[(0, 16384), (16384, 16384)], [(0, 16384), (16384, 0)]] ∧
    ∃ p ∈ createQueue 49152 32768 [[1], [2]] [], ∃ blk ∈ p.blocks, blk.2 = 0 := by
  refine ⟨by decide, by decide⟩

theorem joinAll_none (l : List (Option (List Nat))) (j : Nat)
    (h : l[j]? = some none) : joinAll l = none := by
  induction l generalizing j with
  | nil => simp at h
  | cons hd tl ih =>
    cases j with
    | zero =>
      simp at h
      subst h
      rfl
    | succ n =>
      have h2 : tl[n]? = some none := by simpa using h
      cases hd with
      | none => rfl
      | some b =>
        show (joinAll tl).map _ = none
        rw [ih n h2]
        rfl

theorem writeBlock_mid (sha1 : List Nat → List Nat) (st : PieceSt) (b : Nat)
    (blk : List Nat) (hal : b % BLOCK_SIZE = 0)
    (hrng : b / BLOCK_SIZE < st.blockData.length)
    (hrec : st.blocksRecieved + 1 ≠ st.blocks.length) :
    writeBlock sha1 st st.index b blk
      = .ok (false,
          { st with blockData := st.blockData.set (b / BLOCK_SIZE) (some blk),
                    blocksRecieved := st.blocksRecieved + 1 }, none) := by
  simp [writeBlock, hal, hrng, hrec]

theorem writeBlock_last (sha1 : List Nat → List Nat) (st : PieceSt) (b : Nat)
    (blk : List Nat) (hal : b % BLOCK_SIZE = 0)
    (hrng : b / BLOCK_SIZE < st.blockData.length)
    (hrec : st.blocksRecieved + 1 = st.blocks.length) :
    writeBlock sha1 st st.index b blk
      = writePiece sha1
          { st with blockData := st.blockData.set (b / BLOCK_SIZE) (some blk),
                    blocksRecieved := st.blocksRecieved + 1 } := by
  simp [writeBlock, hal, hrng, hrec]

theorem writePiece_noneSlot (sha1 : List Nat → List Nat) (p : PieceSt) (j : Nat)
    (h : p.blockData[j]? = some none) :
    writePiece sha1 p = .error "TypeError" := by
  unfold writePiece
  rw [joinAll_none p.blockData j h]

theorem runWrites_cons_ok (sha1 : List Nat → List Nat) (st : PieceSt) (b : Nat)
    (blk : List Nat) (rest : List (Nat × List Nat)) (d : Bool) (p2 : PieceSt)
    (w : Option (List Nat))
    (h : writeBlock sha1 st st.index b blk = .ok (d, p2, w)) :
    runWrites sha1 st ((b, blk) :: rest)
      = match runWrites sha1 p2 rest with
        | .error e => .error e
        | .ok (ds, pf) => .ok (d :: ds, pf) := by
  conv_lhs => unfold runWrites
  rw [h]

theorem runWrites_cons_err (sha1 : List Nat → List Nat) (st : PieceSt) (b : Nat)
    (blk : List Nat) (rest : List (Nat × List Nat)) (e : String)
    (h : writeBlock sha1 st st.index b blk = .error e) :
    runWrites sha1 st ((b, blk) :: rest) = .error e := by
  unfold runWrites
  rw [h]

/-- Running calls that keep the counter strictly below the block count
returns `False` from every call (no assembly), threading the state; a slot
never targeted stays `None`. -/
theorem runWrites_progress (sha1 : List Nat → List Nat) (k j : Nat) :
    ∀ (cs : List (Nat × List Nat)) (st : PieceSt),
      st.blocks.length = k → st.blockData.length = k →
      st.blocksRecieved + cs.length < k →
      (∀ c ∈ cs, c.1 % BLOCK_SIZE = 0) →
      (∀ c ∈ cs, c.1 / BLOCK_SIZE < k) →
      (∀ c ∈ cs, c.1 / BLOCK_SIZE ≠ j) →
      st.blockData[j]? = some none →
      ∃ p2, runWrites sha1 st cs = .ok (List.replicate cs.length false, p2) ∧
        p2.blocks = st.blocks ∧ p2.blockData.length = k ∧
        p2.blocksRecieved = st.blocksRecieved + cs.length ∧
        p2.blockData[j]? = some none := by
  intro cs
  induction cs with
  | nil =>
    intro st h1 h2 _ _ _ _ h7
    exact ⟨st, rfl, rfl, h2, by simp, h7⟩
  | cons c rest ih =>
    intro st h1 h2 h3 hal hrng hmiss h7
    rcases c with ⟨b, blk⟩
    have halb : b % BLOCK_SIZE = 0 := hal (b, blk) (by simp)
    have hmb : b / BLOCK_SIZE ≠ j := hmiss (b, blk) (by simp)
    have hrngb : b / BLOCK_SIZE < st.blockData.length := by
      rw [h2]
      exact hrng (b, blk) (by simp)
    have hrec : st.blocksRecieved + 1 ≠ st.blocks.length := by
      rw [h1]
      simp only [List.length_cons] at h3
      omega
    have hstep := writeBlock_mid sha1 st b blk halb hrngb hrec
    have hslot : (st.blockData.set (b / BLOCK_SIZE) (some blk))[j]? = some none := by
      rw [List.getElem?_set_ne hmb]
      exact h7
    obtain ⟨p2, hrun, hb2, hd2, hr2, hs2⟩ := ih
      { st with blockData := st.blockData.set (b / BLOCK_SIZE) (some blk),
                blocksRecieved := st.blocksRecieved + 1 }
      h1 (by simpa using h2)
      (by simp only [List.length_cons] at h3
          show st.blocksRecieved + 1 + rest.length < k
          omega)
      (fun c hc => hal c (by simp [hc])) (fun c hc => hrng c (by simp [hc]))
      (fun c hc => hmiss c (by simp [hc])) hslot
    refine ⟨p2, ?_, by rw [hb2], hd2, ?_, hs2⟩
    · rw [runWrites_cons_ok sha1 st b blk rest false _ none hstep, hrun]
      rfl
    · rw [hr2]
      show st.blocksRecieved + 1 + rest.length = st.blocksRecieved + ((b, blk) :: rest).length
      simp only [List.length_cons]
      omega

/-- Running exactly as many calls as there are blocks, with some slot never
targeted, triggers assembly on the final call, which fails with `TypeError`
(the `b"".join` meets the empty slot) rather than returning `False`. -/
theorem runWrites_err (sha1 : List Nat → List Nat) (k j : Nat) (_hj : j < k) :
    ∀ (cs : List (Nat × List Nat)) (st : PieceSt),
      st.blocks.length = k → st.blockData.length = k →
      st.blocksRecieved + cs.length = k → cs ≠ [] →
      (∀ c ∈ cs, c.1 % BLOCK_SIZE = 0) →
      (∀ c ∈ cs, c.1 / BLOCK_SIZE < k) →
      (∀ c ∈ cs, c.1 / BLOCK_SIZE ≠ j) →
      st.blockData[j]? = some none →
      runWrites sha1 st cs = .error "TypeError" := by
  intro cs
  induction cs with
  | nil =>
    intro st _ _ _ hne
    exact absurd rfl hne
  | cons c rest ih =>
    intro st h1 h2 h3 _ hal hrng hmiss h7
    rcases c with ⟨b, blk⟩
    have halb : b % BLOCK_SIZE = 0 := hal (b, blk) (by simp)
    have hmb : b / BLOCK_SIZE ≠ j := hmiss (b, blk) (by simp)
    have hrngb : b / BLOCK_SIZE < st.blockData.length := by
      rw [h2]
      exact hrng (b, blk) (by simp)
    have hslot : (st.blockData.set (b / BLOCK_SIZE) (some blk))[j]? = some none := by
      rw [List.getElem?_set_ne hmb]
      exact h7
    by_cases hrest : rest = []
    · subst hrest
      have hrec : st.blocksRecieved + 1 = st.blocks.length := by
        rw [h1]
        simpa using h3
      have hstep := writeBlock_last sha1 st b blk halb hrngb hrec
      exact runWrites_cons_err sha1 st b blk [] "TypeError"
        (hstep.trans (writePiece_noneSlot sha1 _ j hslot))
    · have hrec : st.blocksRecieved + 1 ≠ st.blocks.length := by
        rw [h1]
        have hrl : rest.length ≠ 0 := fun hz => hrest (List.eq_nil_of_length_eq_zero hz)
        simp only [List.length_cons] at h3
        omega
      have hstep := writeBlock_mid sha1 st b blk halb hrngb hrec
      rw [runWrites_cons_ok sha1 st b blk rest false _ none hstep, ih
        { st with blockData := st.blockData.set (b / BLOCK_SIZE) (some blk),
                  blocksRecieved := st.blocksRecieved + 1 }
        h1 (by simpa using h2)
        (by simp only [List.length_cons] at h3
            show st.blocksRecieved + 1 + rest.length = k
            omega)
        hrest (fun c hc => hal c (by simp [hc])) (fun c hc => hrng c (by simp [hc]))
        (fun c hc => hmiss c (by simp [hc])) hslot]

/-- Claim C10 (confirmed): `write_block` decides completion solely by the
call counter.  For any `k`-block piece and any sequence of `k` aligned,
in-range calls with the correct index in which some slot `j` is never
targeted (two calls shared a begin offset): every proper prefix of the run
returns `False` with no assembly, and the `k`-th call — triggered purely by
`blocks_recieved == len(blocks)` — attempts assembly, where `b"".join` hits
the empty slot and raises `TypeError` instead of returning `False`. -/
theorem c10_write_block (sha1 : List Nat → List Nat) (k j : Nat) (hj : j < k)
    (idx len : Nat) (hash : List Nat) (blocks : List (Nat × Nat))
    (hkb : blocks.length = k) (cs : List (Nat × List Nat)) (hlen : cs.length = k)
    (hal : ∀ c ∈ cs, c.1 % BLOCK_SIZE = 0)
    (hrng : ∀ c ∈ cs, c.1 / BLOCK_SIZE < k)
    (hmiss : ∀ c ∈ cs, c.1 / BLOCK_SIZE ≠ j) :
    runWrites sha1 (mkPiece idx blocks hash len) cs = .error "TypeError" ∧
    ∀ i < k, ∃ p2, runWrites sha1 (mkPiece idx blocks hash len) (cs.take i)
        = .ok (List.replicate i false, p2) := by
  have hbl : (mkPiece idx blocks hash len).blocks.length = k := hkb
  have hbd : (mkPiece idx blocks hash len).blockData.length = k := by
    simp [mkPiece, hkb]
  have hslot : (mkPiece idx blocks hash len).blockData[j]? = some none := by
    show (List.replicate blocks.length (none : Option (List Nat)))[j]? = some none
    rw [List.getElem?_replicate, if_pos (by omega)]
  constructor
  · exact runWrites_err sha1 k j hj cs (mkPiece idx blocks hash len) hbl hbd
      (by show 0 + cs.length = k; omega)
      (by intro hz; rw [hz] at hlen; simp at hlen; omega)
      hal hrng hmiss hslot
  · intro i hik
    have htl : (cs.take i).length = i := by
      rw [List.length_take, hlen]
      omega
    obtain ⟨p2, hrun, _⟩ := runWrites_progress sha1 k j (cs.take i)
      (mkPiece idx blocks hash len) hbl hbd
      (by rw [htl]; show 0 + i < k; omega)
      (fun c hc => hal c (List.take_subset i cs hc))
      (fun c hc => hrng c (List.take_subset i cs hc))
      (fun c hc => hmiss c (List.take_subset i cs hc))
      hslot
    rw [htl] at hrun
    exact ⟨p2, hrun⟩

/-- Witness for `c10_write_block`: a 2-block piece receiving two calls that
both target slot 0 (slot 1 is never filled). -/
theorem c10_write_block_witness :
    (1 : Nat) < 2 ∧ ([((0 : Nat), (16384 : Nat)), (16384, 16384)]).length = 2 ∧
    ([(((0 : Nat)), ([1] : List Nat)), (0, [2])]).length = 2 ∧
    (∀ c ∈ [(((0 : Nat)), ([1] : List Nat)), (0, [2])], c.1 % BLOCK_SIZE = 0) ∧
    (∀ c ∈ [(((0 : Nat)), ([1] : List Nat)), (0, [2])], c.1 / BLOCK_SIZE < 2) ∧
    (∀ c ∈ [(((0 : Nat)), ([1] : List Nat)), (0, [2])], c.1 / BLOCK_SIZE ≠ 1) ∧
    (runWrites (fun _ => []) (mkPiece 0 [(0, 16384), (16384, 16384)] [9] 32768)
        [((0 : Nat), [1]), (0, [2])] = .error "TypeError" ∧
      ∀ i < 2, ∃ p2, runWrites (fun _ => [])
          (mkPiece 0 [(0, 16384), (16384, 16384)] [9] 32768)
          (([((0 : Nat), ([1] : List Nat)), (0, [2])]).take i)
          = .ok (List.replicate i false, p2)) :=
  ⟨by decide, by decide, by decide, by decide, by decide, by decide,
    c10_write_block (fun _ => []) 2 1 (by decide) 0 32768 [9]
      [(0, 16384), (16384, 16384)] (by decide) [(0, [1]), (0, [2])]
      (by decide) (by decide) (by decide) (by decide)⟩

/-! ## Peer session (`connections.py`) -/

/-- `msg_request_all_pack(piece)`: one request frame per block. -/
def msg_request_all_pack (p : PieceSt) : List Nat :=
  (p.blocks.map (fun blk => msg_request_pack p.index blk.1 blk.2)).flatten

/-- What `Peer.evaluate_msg` does on the wire / to the connection. -/
inductive PeerResp where
  | reply : List Nat → PeerResp
  | closeConn : String → PeerResp
deriving DecidableEq, Repr

/-- The slice of `Peer` state that the message handlers touch: the held
piece, the shared `PieceManager` queue, the peer's bitfield, and a log of
`(index, bytes)` pairs handed to `FileWriter.write_piece`. -/
structure SessionSt where
  piece : Option PieceSt
  queue : List PieceSt
  bitfield : Option (List Bool)
  disk : List (Nat × List Nat)
deriving DecidableEq, Repr

/-- The `piece`-message arm of `Peer.evaluate_msg` in state REQUEST_PASSING
(`connections.py`): call `write_block` on the held piece (raising if none is
held); when it reports finished, record the written bytes, drop the piece
and ask the manager for a new one (`_get_piece`, with fuel: outer `none`
means its loop did not terminate), replying `request_all` or closing when no
piece remains; when it reports not finished — WHICH INCLUDES A FAILED HASH
VALIDATION — reply a keep-alive with the piece still held, the queue
untouched, and nothing written. -/
def evaluateMsgPiece (sha1 : List Nat → List Nat) (fuel : Nat) (st : SessionSt)
    (index begin_ : Nat) (block : List Nat) :
    Option (Except String (PeerResp × SessionSt)) :=
  match st.piece with
  | none => some (.error "AttributeError: NoneType has no attribute write_block")
  | some p =>
    match writeBlock sha1 p index begin_ block with
    | .error e => some (.error e)
    | .ok (false, p2, _) =>
      some (.ok (.reply msg_keep_alive_pack, { st with piece := some p2 }))
    | .ok (true, p2, w) =>
      let disk2 := match w with
        | some bs => st.disk ++ [(p2.index, bs)]
        | none => st.disk
      match getPieceFuel fuel st.bitfield st.queue with
      | none => none
      | some (.error e) => some (.error e)
      | some (.ok (none, q2)) =>
        some (.ok (.closeConn "no more needed pieces",
          { st with piece := none, queue := q2, disk := disk2 }))
      | some (.ok (some np, q2)) =>
        some (.ok (.reply (msg_request_all_pack np),
          { st with piece := some np, queue := q2, disk := disk2 }))

/-- Claim C3 (code bug): a fully assembled piece that FAILS validation (here
the digest function returns `[0]` but the expected hash is `[9]`).  The
bytes are not written to disk (as the claim states), but `write_block`
returns `False`, which `evaluate_msg` treats as "piece still in progress":
it replies a keep-alive, the piece is NOT returned to the queue (it stays
held, fully counted), and the connection is NOT closed. -/
theorem c3_code_eval :
    evaluateMsgPiece (fun _ => [0]) 5
        ⟨some (mkPiece 0 [(0, 4)] [9] 4), [], some [], []⟩ 0 0 [7, 7, 7, 7]
      = some (.ok (.reply [0, 0, 0, 0],
          ⟨some ⟨0, [(0, 4)], [9], 4, 1, [some [7, 7, 7, 7]]⟩, [], some [], []⟩)) ∧
    (fun (_ : List Nat) => ([0] : List Nat)) [7, 7, 7, 7] ≠ [9] := by
  refine ⟨rfl, by decide⟩

/-- `Peer._set_bitfield(bitfield=..., have=...)` (`connections.py`): a
bitfield payload replaces `self._bitfield`; a have payload executes
`self._bitfield[piece_index] = True`, which on a `None` bitfield raises
`TypeError` (and on an out-of-range index `IndexError`; a negative
`piece_index` — `bitstring` parses it signed — wraps Python-style). -/
def setBitfield (cur : Option (List Bool)) (bfArg : Option (List Bool))
    (haveArg : Option Int) : Except String (Option (List Bool)) :=
  match bfArg with
  | some bf => .ok (some bf)
  | none =>
    match haveArg with
    | some idx =>
      match cur with
      | none => .error "TypeError: NoneType does not support item assignment"
      | some arr =>
        let j : Int := if idx < 0 then idx + arr.length else idx
        if 0 ≤ j ∧ j < arr.length then .ok (some (arr.set j.toNat true))
        else .error "IndexError: list assignment index out of range"
    | none => .error "KeyError: must pass either bitfield or have msg"

/-- Claim C4 (code bug): in BITFIELD_PARSING the `have` arm calls
`_set_bitfield(have=payload)`; when no bitfield has been received yet
(`self._bitfield is None`) the source raises `TypeError` instead of
lazily initializing a zero bitfield and setting the bit as the
specification requires. -/
theorem c4_code_eval :
    setBitfield none none (some 3)
      = .error "TypeError: NoneType does not support item assignment" ∧
    ∀ piece_count : Nat, setBitfield none none (some 3)
      ≠ .ok (some ((List.replicate piece_count false).set 3 true)) := by
  refine ⟨rfl, fun _ h => by simp [setBitfield] at h⟩

/-! ## Handshake validation and the tracker (`connections.py`) -/

/-- Does `l` start with `pat`?  (Matching step of Python substring search.) -/
def startsWithSeq {α : Type} [DecidableEq α] : List α → List α → Bool
  | [], _ => true
  | _ :: _, [] => false
  | a :: as, b :: bs => if a = b then startsWithSeq as bs else false

/-- Python's `pat in l` for byte/char strings: `pat` occurs contiguously
anywhere in `l`. -/
def containsSeq {α : Type} [DecidableEq α] (pat : List α) : List α → Bool
  | [] => startsWithSeq pat []
  | b :: bs => startsWithSeq pat (b :: bs) || containsSeq pat bs

theorem startsWithSeq_iff {α : Type} [DecidableEq α] (pat l : List α) :
    startsWithSeq pat l = true ↔ l.take pat.length = pat := by
  induction pat generalizing l with
  | nil => simp [startsWithSeq]
  | cons a as ih =>
    cases l with
    | nil => simp [startsWithSeq]
    | cons b bs =>
      by_cases hab : a = b
      · subst hab
        simp [startsWithSeq, ih]
      · have hba : ¬ b = a := fun h => hab h.symm
        simp [startsWithSeq, hab, hba]

theorem containsSeq_iff {α : Type} [DecidableEq α] (pat l : List α) :
    containsSeq pat l = true ↔ ∃ i, (l.drop i).take pat.length = pat := by
  induction l with
  | nil => simp [containsSeq, startsWithSeq_iff]
  | cons b bs ih =>
    rw [show containsSeq pat (b :: bs)
          = (startsWithSeq pat (b :: bs) || containsSeq pat bs) from rfl]
    rw [Bool.or_eq_true, startsWithSeq_iff, ih]
    constructor
    · rintro (h | ⟨i, hi⟩)
      · exact ⟨0, by simpa using h⟩
      · exact ⟨i + 1, by simpa using hi⟩
    · rintro ⟨i, hi⟩
      cases i with
      | zero => exact Or.inl (by simpa using hi)
      | succ n => exact Or.inr ⟨n, by simpa using hi⟩

/-- The byte values of `"BitTorrent protocol".encode()`. -/
def pstrBytes : List Nat :=
  [66, 105, 116, 84, 111, 114, 114, 101, 110, 116, 32, 112, 114, 111, 116, 111, 99, 111, 108]

/-- `TorrentMD.get_handshake` payload: pstrlen `0x13`, pstr, 8 reserved zero
bytes, the info hash, the peer id. -/
def handshakePayload (info_hash peer_id : List Nat) : List Nat :=
  [19] ++ pstrBytes ++ List.replicate 8 0 ++ info_hash ++ peer_id

/-- `Peer.validate_handshake(data)`: Python's `info_hash in data` SUBSTRING
test (anywhere in the buffer, not anchored at bytes 28 to 48) plus a total
length comparison against the local handshake payload. -/
def validate_handshake (info_hash peer_id data : List Nat) : Bool :=
  containsSeq info_hash data
    && (data.length == (handshakePayload info_hash peer_id).length)

/-- Claim C7, counterexample.  A 68-byte buffer whose bytes 28 to 48 differ
from the info hash but which contains the info hash at offset 0 is ACCEPTED
by `validate_handshake`, because the source checks `info_hash in data`
(substring anywhere), not the 28..48 slice. -/
theorem c7_counterexample :
    validate_handshake (List.replicate 20 7) (List.replicate 20 1)
        (List.replicate 20 7 ++ List.replicate 48 0) = true ∧
    ((List.replicate 20 7 ++ List.replicate 48 0).drop 28).take 20
      ≠ List.replicate (20 : Nat) (7 : Nat) := by
  refine ⟨by decide, by decide⟩

/-- Claim C7, amended: with a 20-byte info hash and 20-byte peer id,
`validate_handshake` accepts exactly when the info hash occurs as a
contiguous substring ANYWHERE in the input and the total length equals the
68-byte local handshake length.  (A correctly placed info hash at bytes
28 to 48 is the special case `i = 28`.) -/
theorem c7_amended (info_hash peer_id data : List Nat)
    (hih : info_hash.length = 20) (hpid : peer_id.length = 20) :
    validate_handshake info_hash peer_id data = true ↔
      ((∃ i, (data.drop i).take 20 = info_hash) ∧ data.length = 68) := by
  have hlen : (handshakePayload info_hash peer_id).length = 68 := by
    simp [handshakePayload, pstrBytes, hih, hpid]
  rw [validate_handshake, Bool.and_eq_true, containsSeq_iff, beq_iff_eq, hlen, hih]

/-- Witness for `c7_amended`: the locally generated handshake itself. -/
theorem c7_amended_witness :
    (List.replicate 20 7 : List Nat).length = 20 ∧
    (List.replicate 20 1 : List Nat).length = 20 ∧
    (validate_handshake (List.replicate 20 7) (List.replicate 20 1)
        (handshakePayload (List.replicate 20 7) (List.replicate 20 1)) = true ↔
      ((∃ i, ((handshakePayload (List.replicate 20 7) (List.replicate 20 1)).drop i).take 20
          = List.replicate 20 7) ∧
        (handshakePayload (List.replicate 20 7) (List.replicate 20 1)).length = 68)) :=
  ⟨by decide, by decide,
    c7_amended (List.replicate 20 7) (List.replicate 20 1)
      (handshakePayload (List.replicate 20 7) (List.replicate 20 1))
      (by decide) (by decide)⟩

/-- Stored state of a constructed `Tracker`. -/
structure TrackerSt where
  announce_url : List Char
  info_hash : List Nat
  peer_id : List Char
  torrent_length : Nat
deriving DecidableEq, Repr

/-- `Tracker.__init__`: the scheme test is Python's `"http" in announce_url`
— a SUBSTRING test anywhere in the URL — raising `TypeError` when absent;
then the 20-byte checks on `info_hash` and `peer_id` raise `ValueError`. -/
def trackerInit (announce_url : List Char) (info_hash : List Nat)
    (peer_id : List Char) (torrent_length : Nat) : Except String TrackerSt :=
  if containsSeq "http".toList announce_url then
    if info_hash.length ≠ 20 then .error "ValueError: info_hash must be 20 bytes"
    else if peer_id.length ≠ 20 then .error "ValueError: peer_id must be 20 bytes"
    else .ok ⟨announce_url, info_hash, peer_id, torrent_length⟩
  else .error "TypeError: only http trackers supported"

/-- Does the URL have scheme `http://` or `https://` (what the claim calls
the supported schemes)? -/
def schemeIsHttp (url : List Char) : Bool :=
  startsWithSeq "http://".toList url || startsWithSeq "https://".toList url

/-- Claim C8, counterexample.  The announce URL
`udp://httptracker.example/announce` has scheme `udp`, yet `Tracker`
construction SUCCEEDS (storing the URL), because the source tests
`"http" in announce_url` and the host name contains `http`. -/
theorem c8_counterexample :
    trackerInit "udp://httptracker.example/announce".toList (List.replicate 20 0)
        (List.replicate 20 'p') 99
      = .ok ⟨"udp://httptracker.example/announce".toList, List.replicate 20 0,
             List.replicate 20 'p', 99⟩ ∧
    schemeIsHttp "udp://httptracker.example/announce".toList = false := by
  refine ⟨rfl, by decide⟩

theorem startsWithSeq_append {α : Type} [DecidableEq α] (p q l : List α)
    (h : startsWithSeq (p ++ q) l = true) : startsWithSeq p l = true := by
  rw [startsWithSeq_iff] at h ⊢
  have hpp : l.take p.length = (l.take (p ++ q).length).take p.length := by
    rw [List.take_take, min_eq_left (by simp)]
  rw [hpp, h, List.take_left]

theorem schemeIsHttp_contains (url : List Char) (h : schemeIsHttp url = true) :
    containsSeq "http".toList url = true := by
  rw [schemeIsHttp, Bool.or_eq_true] at h
  have hsw : startsWithSeq "http".toList url = true := by
    rcases h with h | h
    · have e : "http://".toList = "http".toList ++ "://".toList := rfl
      rw [e] at h
      exact startsWithSeq_append "http".toList "://".toList url h
    · have e : "https://".toList = "http".toList ++ "s://".toList := rfl
      rw [e] at h
      exact startsWithSeq_append "http".toList "s://".toList url h
  rw [containsSeq_iff]
  rw [startsWithSeq_iff] at hsw
  exact ⟨0, by simpa using hsw⟩

/-- Claim C8, amended: with 20-byte `info_hash` and `peer_id`, construction
succeeds (storing the URL) exactly when the string `http` occurs ANYWHERE in
the announce URL.  Every URL with scheme `http://` or `https://` therefore
succeeds, but so do URLs of other schemes that merely contain `http`. -/
theorem c8_amended (url : List Char) (info_hash : List Nat) (peer_id : List Char)
    (tl : Nat) (hih : info_hash.length = 20) (hpid : peer_id.length = 20) :
    (trackerInit url info_hash peer_id tl = .ok ⟨url, info_hash, peer_id, tl⟩
        ↔ containsSeq "http".toList url = true) ∧
    (schemeIsHttp url = true →
      trackerInit url info_hash peer_id tl = .ok ⟨url, info_hash, peer_id, tl⟩) := by
  have hok : ∀ hc : containsSeq "http".toList url = true,
      trackerInit url info_hash peer_id tl = .ok ⟨url, info_hash, peer_id, tl⟩ := by
    intro hc
    unfold trackerInit
    rw [if_pos hc, if_neg (by omega), if_neg (by omega)]
  refine ⟨⟨?_, hok⟩, fun hs => hok (schemeIsHttp_contains url hs)⟩
  intro h
  by_cases hc : containsSeq "http".toList url = true
  · exact hc
  · exfalso
    unfold trackerInit at h
    rw [if_neg hc] at h
    simp at h

/-- Witness for `c8_amended`: an `https://` announce URL. -/
theorem c8_amended_witness :
    (List.replicate 20 0 : List Nat).length = 20 ∧
    ("trackerpeerid2026xx!".toList).length = 20 ∧
    ((trackerInit "https://tracker.example/announce".toList (List.replicate 20 0)
          "trackerpeerid2026xx!".toList 7
        = .ok ⟨"https://tracker.example/announce".toList, List.replicate 20 0,
               "trackerpeerid2026xx!".toList, 7⟩
        ↔ containsSeq "http".toList "https://tracker.example/announce".toList = true) ∧
      (schemeIsHttp "https://tracker.example/announce".toList = true →
        trackerInit "https://tracker.example/announce".toList (List.replicate 20 0)
            "trackerpeerid2026xx!".toList 7
          = .ok ⟨"https://tracker.example/announce".toList, List.replicate 20 0,
                 "trackerpeerid2026xx!".toList, 7⟩)) :=
  ⟨by decide, by decide,
    c8_amended "https://tracker.example/announce".toList (List.replicate 20 0)
      "trackerpeerid2026xx!".toList 7 (by decide) (by decide)⟩

/-! ## Multi-file output assembly (`torrent_io.py`, `FileWriter`) -/

/-- Read `<i>.piece` from the piece directory; a missing piece file raises
`FileNotFoundError`. -/
def readPiece (pieces : List (List Nat)) (i : Nat) : Except String (List Nat) :=
  match pieces[i]? with
  | some b => .ok b
  | none => .error "FileNotFoundError"

/-- `FileWriter._write_multi_files`, with the filesystem abstracted: piece
`i`'s bytes are `pieces[i]`, and the returned list holds each output file's
bytes in metainfo order.  For each file spanning `(hp, hb)` to `(tp, tb)`:
a single-piece file is the slice `pieces[hp][hb:tb]`; otherwise the loop
slices the first piece from `hb`, copies middle pieces whole, and slices the
last piece up to `tb`.  After each file the source checks
`len(full_bytes) not in set(file_lengths)` — MEMBERSHIP in the set of all
declared lengths, not equality with this file's own declared length —
raising `ValueError` on failure. -/
def writeMultiGo (pieces : List (List Nat)) (file_lengths : List Nat) :
    Nat × Nat → List (Nat × Nat) → Except String (List (List Nat))
  | _, [] => .ok []
  | (hp, hb), (tp, tb) :: rest =>
    let fileBytesE : Except String (List Nat) :=
      if hp = tp then (readPiece pieces hp).map (fun pb => (pb.take tb).drop hb)
      else (List.range' hp (tp + 1 - hp)).foldlM (fun acc pce =>
        if pce = hp then (readPiece pieces pce).map (fun pb => acc ++ pb.drop hb)
        else if pce = tp then (readPiece pieces pce).map (fun pb => acc ++ pb.take tb)
        else (readPiece pieces pce).map (fun pb => acc ++ pb)) []
    match fileBytesE with
    | .error e => .error e
    | .ok fileBytes =>
      if file_lengths.contains fileBytes.length then
        match writeMultiGo pieces file_lengths (tp, tb) rest with
        | .error e => .error e
        | .ok others => .ok (fileBytes :: others)
      else .error "ValueError: output file is the wrong number of bytes"

/-- `FileWriter._write_multi_files` driver: the head cursor starts at
`(0, 0)` and each file's tail offset becomes the next file's head. -/
def writeMultiFiles (pieces : List (List Nat)) (file_offsets : List (Nat × Nat))
    (file_lengths : List Nat) : Except String (List (List Nat)) :=
  writeMultiGo pieces file_lengths (0, 0) file_offsets

/-- Claim C9 (code bug): piece 0 is truncated to 6 bytes, so the second
file (declared length 5, offsets `(0,3)` to `(0,8)`) is written with only 3
bytes — yet NO error is raised, because 3 is the first file's declared
length and the source only checks membership in `set(file_lengths)`.  The
claim's strict per-file equality requires an error here. -/
theorem c9_code_eval :
    writeMultiFiles [[0, 1, 2, 3, 4, 5]] [(0, 3), (0, 8)] [3, 5]
      = .ok [[0, 1, 2], [3, 4, 5]] ∧
    ([3, 4, 5] : List Nat).length ≠ [3, 5].getD 1 0 := by
  refine ⟨rfl, by decide⟩

end Pytorrent
